import Mathlib

/-!
Verification of the cycle-time engine of the GPT-counter app (src/src/App.jsx).

The program works with Luxon `DateTime` values in a configured IANA timezone.
We embed a DateTime as its civil (wall-clock) fields in that zone, and a
timezone as the function mapping a civil datetime to its UTC offset in
milliseconds (IANA offsets are always within ±14 hours, recorded as a bound
in the structure).  The instant of a civil datetime (`toMillis`) is its
linearization in milliseconds minus the zone offset; Luxon comparisons and
arithmetic on instants correspond to comparisons and arithmetic on `toMillis`.
The epoch of the linearization is 0001-01-01 rather than 1970-01-01; this
constant shift is harmless since every property concerns differences and
orderings of instants, and it is applied consistently everywhere.
-/

namespace GPTCounter

/-- Civil (wall-clock) date-time in the configured zone: a Luxon `DateTime`
as year, month (1-12), day (1-31) and millisecond of the local day. -/
structure CivilDT where
  year : Nat
  month : Nat
  day : Nat
  msOfDay : Nat
deriving DecidableEq, Repr

/-- Proleptic Gregorian leap-year rule (what Luxon implements). -/
abbrev isLeap (y : Nat) : Prop := (y % 4 = 0 ∧ ¬ (y % 100 = 0)) ∨ y % 400 = 0

/-- Length of month `m` of year `y` in days. -/
def daysInMonth (y m : Nat) : Nat :=
  if m = 2 then (if isLeap y then 29 else 28)
  else if m = 4 ∨ m = 6 ∨ m = 9 ∨ m = 11 then 30
  else 31

/-- Days of year `y` that precede month `m`, ignoring the leap day. -/
def daysBeforeMonthBase (m : Nat) : Nat :=
  if m ≤ 1 then 0 else if m = 2 then 31 else if m = 3 then 59 else if m = 4 then 90
  else if m = 5 then 120 else if m = 6 then 151 else if m = 7 then 181 else if m = 8 then 212
  else if m = 9 then 243 else if m = 10 then 273 else if m = 11 then 304
  else if m = 12 then 334 else 365

/-- Days of year `y` that precede month `m`. -/
def daysBeforeMonth (y m : Nat) : Nat :=
  daysBeforeMonthBase m + (if 3 ≤ m ∧ isLeap y then 1 else 0)

/-- Days that precede January 1 of year `y`, counting from 0001-01-01. -/
def daysBeforeYear (y : Nat) : Nat :=
  365 * (y - 1) + (y - 1) / 4 - (y - 1) / 100 + (y - 1) / 400

theorem daysInMonth_ge (y m : Nat) : 28 ≤ daysInMonth y m := by
  unfold daysInMonth; split_ifs <;> omega

theorem daysInMonth_le (y m : Nat) : daysInMonth y m ≤ 31 := by
  unfold daysInMonth; split_ifs <;> omega

theorem daysBeforeMonth_succ (y m : Nat) (h1 : 1 ≤ m) (h2 : m ≤ 12) :
    daysBeforeMonth y (m + 1) = daysBeforeMonth y m + daysInMonth y m := by
  interval_cases m <;> by_cases hL : isLeap y <;>
    simp [daysBeforeMonth, daysBeforeMonthBase, daysInMonth, hL]

set_option maxHeartbeats 2000000 in
theorem daysBeforeYear_succ (y : Nat) (h : 1 ≤ y) :
    daysBeforeYear (y + 1) = daysBeforeYear y + 365 + (if isLeap y then 1 else 0) := by
  unfold daysBeforeYear
  split_ifs with hL
  · unfold isLeap at hL
    omega
  · unfold isLeap at hL
    omega

/-- Days since 0001-01-01 of a civil datetime. -/
def toEpochDays (c : CivilDT) : Nat :=
  daysBeforeYear c.year + daysBeforeMonth c.year c.month + (c.day - 1)

/-- Linearization of a civil datetime in milliseconds since 0001-01-01 00:00. -/
def linMs (c : CivilDT) : Nat := 86400000 * toEpochDays c + c.msOfDay

/-- A civil datetime with fields in range (what Luxon produces for any valid
`DateTime` in a zone). -/
abbrev CivilDT.Valid (c : CivilDT) : Prop :=
  1 ≤ c.year ∧ 1 ≤ c.month ∧ c.month ≤ 12 ∧ 1 ≤ c.day ∧
    c.day ≤ daysInMonth c.year c.month ∧ c.msOfDay < 86400000

/-- A valid civil datetime. -/
abbrev ValidCivil := { c : CivilDT // c.Valid }

/-- A timezone: the UTC offset (in milliseconds) of each civil datetime of the
zone.  Real IANA offsets are within ±14 hours, which the structure records. -/
structure Zone where
  offset : CivilDT → Int
  offset_le : ∀ c, offset c ≤ 50400000
  le_offset : ∀ c, -50400000 ≤ offset c

/-- The instant (epoch milliseconds, epoch 0001-01-01 UTC) of a civil datetime
interpreted in zone `z`; the embedding of Luxon `toMillis()`. -/
def toMillis (z : Zone) (c : CivilDT) : Int := (linMs c : Int) - z.offset c

/-- The default zone of the app, `Asia/Kathmandu`: constant offset +05:45. -/
def kathmandu : Zone where
  offset := fun _ => 20700000
  offset_le := fun _ => by norm_num
  le_offset := fun _ => by norm_num

/-- A zone whose offset does not depend on the civil datetime (no DST). -/
def FixedOffset (z : Zone) : Prop := ∀ c d : CivilDT, z.offset c = z.offset d

/-- `monthAddCalendar(dt, 1)` of the source (Luxon `dt.plus({months: 1})`):
advance the month by one, preserving local time-of-day and clamping the
day-of-month to the length of the target month. -/
def monthAddRaw (c : CivilDT) : CivilDT :=
  if c.month = 12 then
    ⟨c.year + 1, 1, min c.day (daysInMonth (c.year + 1) 1), c.msOfDay⟩
  else
    ⟨c.year, c.month + 1, min c.day (daysInMonth c.year (c.month + 1)), c.msOfDay⟩

theorem monthAddRaw_valid (c : CivilDT) (h : c.Valid) : (monthAddRaw c).Valid := by
  obtain ⟨hy, hm1, hm2, hd1, hd2, hms⟩ := h
  have g1 := daysInMonth_ge (c.year + 1) 1
  have g2 := daysInMonth_ge c.year (c.month + 1)
  unfold monthAddRaw CivilDT.Valid
  split_ifs with h12 <;> dsimp only <;> omega

theorem daysBeforeMonth_twelve (y : Nat) :
    daysBeforeMonth y 12 = 334 + (if isLeap y then 1 else 0) := by
  by_cases hL : isLeap y <;> simp [daysBeforeMonth, daysBeforeMonthBase, hL]

theorem daysBeforeMonth_one (y : Nat) : daysBeforeMonth y 1 = 0 := by
  simp [daysBeforeMonth, daysBeforeMonthBase]

theorem linMs_monthAddRaw (c : CivilDT) (h : c.Valid) :
    linMs c + 28 * 86400000 ≤ linMs (monthAddRaw c) := by
  obtain ⟨hy, hm1, hm2, hd1, hd2, hms⟩ := h
  unfold linMs toEpochDays monthAddRaw
  split_ifs with h12
  · dsimp only
    rw [h12] at hd2 ⊢
    have h1 := daysBeforeYear_succ c.year hy
    have h2 := daysBeforeMonth_twelve c.year
    have h3 := daysBeforeMonth_one (c.year + 1)
    have h4 : daysInMonth c.year 12 = 31 := by simp [daysInMonth]
    have h5 : daysInMonth (c.year + 1) 1 = 31 := by simp [daysInMonth]
    split_ifs at h1 h2 <;> omega
  · dsimp only
    have h0 := daysInMonth_ge c.year c.month
    have h1 := daysBeforeMonth_succ c.year c.month hm1 hm2
    have h2 := daysInMonth_ge c.year (c.month + 1)
    have h3 := daysInMonth_le c.year (c.month + 1)
    omega

theorem toMillis_monthAddRaw (z : Zone) (c : CivilDT) (h : c.Valid) :
    toMillis z c + 2318400000 ≤ toMillis z (monthAddRaw c) := by
  have h1 := linMs_monthAddRaw c h
  have h2 := z.offset_le c
  have h3 := z.le_offset c
  have h4 := z.offset_le (monthAddRaw c)
  have h5 := z.le_offset (monthAddRaw c)
  unfold toMillis
  omega

/-- Packed (validity-preserving) calendar month add on valid civil datetimes. -/
def monthAddCalendar (c : ValidCivil) : ValidCivil :=
  ⟨monthAddRaw c.val, monthAddRaw_valid c.val c.property⟩

theorem toMillis_monthAddCalendar (z : Zone) (c : ValidCivil) :
    toMillis z c.val < toMillis z (monthAddCalendar c).val := by
  have := toMillis_monthAddRaw z c.val c.property
  unfold monthAddCalendar
  dsimp only
  omega

/-- The record returned by `rollCycleToNow`: the active window `[start, end)`
and the `rolled` flag. -/
structure ResolvedWindow where
  start : ValidCivil
  endTime : ValidCivil
  rolled : Bool

/-- The `while (now >= end)` loop of `rollCycleToNow` (src/src/App.jsx lines
217-222): advance `start = end; end = monthAddCalendar(end, 1)` and set
`rolled = true` until `now < end`. -/
def rollLoop (z : Zone) (now : Int) (s e : ValidCivil) (rolled : Bool) : ResolvedWindow :=
  if _h : toMillis z e.val ≤ now then
    rollLoop z now e (monthAddCalendar e) true
  else
    ⟨s, e, rolled⟩
termination_by (now + 1 - toMillis z e.val).toNat
decreasing_by
  have := toMillis_monthAddCalendar z e
  omega

/-- `rollCycleToNow(cycle, now)` of the source (src/src/App.jsx lines 206-224),
on the already-parsed civil start/end of the cycle definition: if `now` is
before the anchor start, keep the anchor window unchanged with
`rolled = false`; otherwise roll forward by calendar months until the window
contains `now`. -/
def rollCycleToNow (z : Zone) (s e : ValidCivil) (now : Int) : ResolvedWindow :=
  if now < toMillis z s.val then ⟨s, e, false⟩
  else rollLoop z now s e false

theorem rollLoop_eq (z : Zone) (now : Int) (s e : ValidCivil) (b : Bool) :
    rollLoop z now s e b =
      if toMillis z e.val ≤ now then rollLoop z now e (monthAddCalendar e) true
      else ⟨s, e, b⟩ := by
  rw [rollLoop]
  rw [dite_eq_ite]

/-- Loop invariant of `rollCycleToNow`: once `start` is at or before `now`,
the loop returns a window with `start <= now < end`. -/
theorem rollLoop_contains (z : Zone) (now : Int) :
    ∀ (s e : ValidCivil) (b : Bool), toMillis z s.val ≤ now →
      toMillis z (rollLoop z now s e b).start.val ≤ now ∧
        now < toMillis z (rollLoop z now s e b).endTime.val := by
  intro s e b hs
  induction s, e, b using rollLoop.induct z now with
  | case1 s e b hg ih =>
    rw [rollLoop_eq, if_pos hg]
    exact ih hg
  | case2 s e b hg =>
    rw [rollLoop_eq, if_neg hg]
    dsimp only
    omega

/-- The loop never moves `start` backwards: starting from a window whose
start is at or before its end, the returned start is at or after the
initial start. -/
theorem rollLoop_start_ge (z : Zone) (now : Int) :
    ∀ (s e : ValidCivil) (b : Bool), toMillis z s.val ≤ toMillis z e.val →
      toMillis z s.val ≤ toMillis z (rollLoop z now s e b).start.val := by
  intro s e b hse
  induction s, e, b using rollLoop.induct z now with
  | case1 s e b hg ih =>
    rw [rollLoop_eq, if_pos hg]
    have hmono := toMillis_monthAddCalendar z e
    have := ih (by omega)
    omega
  | case2 s e b hg =>
    rw [rollLoop_eq, if_neg hg]

/-- Resolving at a later instant from scratch agrees with resolving the
window already resolved at an earlier instant. -/
theorem rollLoop_absorb (z : Zone) (n1 n2 : Int) (h12 : n1 ≤ n2) :
    ∀ (s e : ValidCivil) (b : Bool),
      rollLoop z n2 s e b =
        rollLoop z n2 (rollLoop z n1 s e b).start (rollLoop z n1 s e b).endTime
          (rollLoop z n1 s e b).rolled := by
  intro s e b
  induction s, e, b using rollLoop.induct z n1 with
  | case1 s e b hg ih =>
    rw [rollLoop_eq z n1, if_pos hg]
    rw [rollLoop_eq z n2 s, if_pos (by omega)]
    exact ih
  | case2 s e b hg =>
    rw [rollLoop_eq z n1, if_neg hg]

/-- `clamp(n, min, max) = Math.max(min, Math.min(max, n))` of the source
(src/src/App.jsx line 132). -/
def clamp (n lo hi : Int) : Int := max lo (min hi n)

/-- JavaScript division of two integer millisecond quantities.  A zero
denominator yields NaN (for `0/0`) or an infinity, i.e. no finite number;
we embed the result as `Option ℚ` with `none` for those non-finite values. -/
def jsDiv (a b : Int) : Option ℚ := if b = 0 then none else some ((a : ℚ) / (b : ℚ))

/-- The progress computation of `GPTDeadlineApp` (src/src/App.jsx lines
505-508): `totalMs = end - start`, `elapsedMs = clamp(now - start, 0,
totalMs)`, `progress = elapsedMs / totalMs`, with no guard on `totalMs`. -/
def progressOf (z : Zone) (s e : ValidCivil) (now : Int) : Option ℚ :=
  let totalMs := toMillis z e.val - toMillis z s.val
  let elapsedMs := clamp (now - toMillis z s.val) 0 totalMs
  jsDiv elapsedMs totalMs

/-- One step of Luxon calendar-day subtraction: the previous civil day,
keeping the local time-of-day. -/
def decDay (c : CivilDT) : CivilDT :=
  if 2 ≤ c.day then { c with day := c.day - 1 }
  else if 2 ≤ c.month then { c with month := c.month - 1, day := daysInMonth c.year (c.month - 1) }
  else { c with year := c.year - 1, month := 12, day := 31 }

/-- Luxon `dt.minus({days: n})`: subtract `n` calendar days, preserving the
local time-of-day (this is calendar arithmetic, not absolute-duration
arithmetic). -/
def minusCalendarDays (c : CivilDT) : Nat → CivilDT
  | 0 => c
  | n + 1 => decDay (minusCalendarDays c n)

/-- The milestone instants of `milestoneTimes(start, end)` (src/src/App.jsx
lines 227-234), given as `toMillis` instants of the returned DateTimes:
`halfway = start.plus({milliseconds: totalMs / 2})` (absolute, exact float
halving embeds as division in ℚ), `threeDays = end.minus({days: 3})`
(calendar-day subtraction), `lastDay = end.minus({hours: 24})` (absolute),
`renewal = end`. -/
structure Milestones where
  halfway : ℚ
  threeDays : ℚ
  lastDay : ℚ
  renewal : ℚ

def milestoneTimes (z : Zone) (s e : ValidCivil) : Milestones :=
  let totalMs : Int := toMillis z e.val - toMillis z s.val
  { halfway := (toMillis z s.val : ℚ) + (totalMs : ℚ) / 2
    threeDays := (toMillis z (minusCalendarDays e.val 3) : ℚ)
    lastDay := (toMillis z e.val : ℚ) - 86400000
    renewal := (toMillis z e.val : ℚ) }

/-- The four milestone kinds (the keys of the `reminders` object). -/
inductive MKind where
  | halfway
  | threeDays
  | lastDay
  | renewal
deriving DecidableEq, Repr

/-- The persisted `reminders` object: a JS object in which each flag may be
absent (`none` embeds JS `undefined`). -/
structure ReminderFlags where
  halfway : Option Bool
  threeDays : Option Bool
  lastDay : Option Bool
  renewal : Option Bool
deriving DecidableEq, Repr

/-- JS truthiness of `enabled[key]`: an absent flag reads as `undefined`,
which is falsy. -/
def flagOf (r : ReminderFlags) : MKind → Bool
  | .halfway => r.halfway.getD false
  | .threeDays => r.threeDays.getD false
  | .lastDay => r.lastDay.getD false
  | .renewal => r.renewal.getD false

/-- One `schedule(key, at, ...)` call of `useReminders` (src/src/App.jsx
lines 345-363): with `delay = at - nowRef`, return unchanged when
`delay <= 0 || !enabled[key]`, otherwise record a timer for `key` that fires
at instant `t` (i.e. `nowRef + delay`). -/
def scheduleStep (enabled : ReminderFlags) (nowRef : ℚ) (acc : List (MKind × ℚ))
    (k : MKind) (t : ℚ) : List (MKind × ℚ) :=
  if t - nowRef ≤ 0 ∨ flagOf enabled k = false then acc else acc ++ [(k, t)]

/-- The timer-arming effect of `useReminders` (src/src/App.jsx lines
340-375): clear every previously armed timer (`timers.current = {}`), then
schedule the four milestone timers in source order; the renewal timer is
armed at `renewal.minus({minutes: 5})`.  `nowRef` is the wall-clock
`DateTime.now()` read at arm time.  Each armed timer is `(kind, fireAt)`. -/
def rearm (_prev : List (MKind × ℚ)) (enabled : ReminderFlags) (z : Zone)
    (s e : ValidCivil) (nowRef : ℚ) : List (MKind × ℚ) :=
  let m := milestoneTimes z s e
  let l0 : List (MKind × ℚ) := []
  let l1 := scheduleStep enabled nowRef l0 .halfway m.halfway
  let l2 := scheduleStep enabled nowRef l1 .threeDays m.threeDays
  let l3 := scheduleStep enabled nowRef l2 .lastDay m.lastDay
  scheduleStep enabled nowRef l3 .renewal (m.renewal - 300000)

/-- The instant for which the timer of each kind is armed (the `at` argument of the
corresponding `schedule` call): the milestone instant, except that the
renewal timer is armed 5 minutes early. -/
def armInstant (z : Zone) (s e : ValidCivil) : MKind → ℚ
  | .halfway => (milestoneTimes z s e).halfway
  | .threeDays => (milestoneTimes z s e).threeDays
  | .lastDay => (milestoneTimes z s e).lastDay
  | .renewal => (milestoneTimes z s e).renewal - 300000

/-- The instant of each milestone itself. -/
def milestoneInstant (z : Zone) (s e : ValidCivil) : MKind → ℚ
  | .halfway => (milestoneTimes z s e).halfway
  | .threeDays => (milestoneTimes z s e).threeDays
  | .lastDay => (milestoneTimes z s e).lastDay
  | .renewal => (milestoneTimes z s e).renewal

/-- The current instant produced by `useNowTick(qaMode, qaNowISO)`
(src/src/App.jsx lines 326-334): the QA override instant when QA mode is on
and an override is set, the wall clock otherwise. -/
def useNowTickNow (qaMode : Bool) (qaNow : Option ℚ) (wallNow : ℚ) : ℚ :=
  match qaMode, qaNow with
  | true, some q => q
  | _, _ => wallNow

/-- The timers armed by `useReminders` as invoked from `GPTDeadlineApp`:
the effect closes over `(enabled, start, end)` only and reads
`DateTime.now()` (the wall clock) for the delays (src/src/App.jsx line 346);
the QA state `(qaMode, qaNow)` of the component is not an input of the
arming computation. -/
def armedTimersOfApp (_qaMode : Bool) (_qaNow : Option ℚ) (wallNow : ℚ)
    (prev : List (MKind × ℚ)) (enabled : ReminderFlags) (z : Zone)
    (s e : ValidCivil) : List (MKind × ℚ) :=
  rearm prev enabled z s e wallNow

/-- A persisted cycle record as the app uses it after load: every top-level
key present, the `reminders` object possibly missing flags. -/
structure CycleRec where
  plan : String
  timezone : String
  startISO : String
  endISO : String
  reminders : ReminderFlags
  theme : String
  hourFormat : String
deriving DecidableEq, Repr

/-- A stored (JSON-parsed) cycle record: any top-level key may be absent. -/
structure CycleJS where
  plan : Option String
  timezone : Option String
  startISO : Option String
  endISO : Option String
  reminders : Option ReminderFlags
  theme : Option String
  hourFormat : Option String
deriving DecidableEq, Repr

/-- The result of `localStorage.getItem` + `JSON.parse` in `loadState`:
no stored value, an unparseable value (the `catch` path), or a parsed
record. -/
inductive RawState where
  | absent
  | corrupt
  | parsed (c : CycleJS)

/-- The JS shallow spread `{ ...fallback, ...JSON.parse(raw) }`
(src/src/App.jsx line 197): each top-level key present in the stored record
replaces the fallback value wholesale; absent keys keep the fallback. -/
def spreadMerge (fallback : CycleRec) (stored : CycleJS) : CycleRec :=
  { plan := stored.plan.getD fallback.plan
    timezone := stored.timezone.getD fallback.timezone
    startISO := stored.startISO.getD fallback.startISO
    endISO := stored.endISO.getD fallback.endISO
    reminders := stored.reminders.getD fallback.reminders
    theme := stored.theme.getD fallback.theme
    hourFormat := stored.hourFormat.getD fallback.hourFormat }

/-- `loadState(key, fallback)` (src/src/App.jsx lines 193-201): return the
fallback when nothing is stored or parsing throws, otherwise the shallow
spread of the parsed record over the fallback. -/
def loadState (fallback : CycleRec) : RawState → CycleRec
  | .absent => fallback
  | .corrupt => fallback
  | .parsed c => spreadMerge fallback c

/-- `DEFAULT_CYCLE` of the source (src/src/App.jsx lines 111-124). -/
def DEFAULT_CYCLE : CycleRec :=
  { plan := "ChatGPT Plus"
    timezone := "Asia/Kathmandu"
    startISO := "2025-08-20T07:18:00+05:45"
    endISO := "2025-09-20T07:18:00+05:45"
    reminders := ⟨some true, some true, some true, some true⟩
    theme := "system"
    hourFormat := "12h" }

/-- The default anchor start `2025-08-20T07:18:00` in `Asia/Kathmandu`. -/
def anchorStartC : ValidCivil := ⟨⟨2025, 8, 20, 26280000⟩, by decide⟩

/-- The default anchor end `2025-09-20T07:18:00` in `Asia/Kathmandu`. -/
def anchorEndC : ValidCivil := ⟨⟨2025, 9, 20, 26280000⟩, by decide⟩

/-- All four reminder flags stored and enabled (the default). -/
def allOn : ReminderFlags := ⟨some true, some true, some true, some true⟩

/-- A zone with a DST transition: offset +01:00 during April-October local
dates and +00:00 otherwise (the shape of e.g. `Europe/London` around the
spring 2025 transition). -/
def dstZone : Zone where
  offset := fun c => if 4 ≤ c.month ∧ c.month ≤ 10 then 3600000 else 0
  offset_le := fun c => by dsimp only; split_ifs <;> norm_num
  le_offset := fun c => by dsimp only; split_ifs <;> norm_num

/-- `2025-04-02T00:00` local, just after the DST transition of `dstZone`. -/
def aprilEndC : ValidCivil := ⟨⟨2025, 4, 2, 0⟩, by decide⟩

/-- `2025-03-02T00:00` local, a window start one month before `aprilEndC`. -/
def marchStartC : ValidCivil := ⟨⟨2025, 3, 2, 0⟩, by decide⟩

/-- C1: for every cycle definition with `anchorEnd > anchorStart` and every
instant `now`, the window returned by `rollCycleToNow` satisfies: if
`now >= anchorStart` then `start <= now < end`; and if `now < anchorStart`
then `start = anchorStart`, `end = anchorEnd` and `rolledForward = false`. -/
theorem rollCycleToNow_window_invariant (z : Zone) (s e : ValidCivil) (now : Int)
    (hse : toMillis z s.val < toMillis z e.val) :
    (toMillis z s.val ≤ now →
      toMillis z (rollCycleToNow z s e now).start.val ≤ now ∧
        now < toMillis z (rollCycleToNow z s e now).endTime.val) ∧
    (now < toMillis z s.val → rollCycleToNow z s e now = ⟨s, e, false⟩) := by
  constructor
  · intro hs
    unfold rollCycleToNow
    rw [if_neg (by omega)]
    exact rollLoop_contains z now s e false hs
  · intro hlt
    unfold rollCycleToNow
    rw [if_pos hlt]

/-- Witness for C1 at the default cycle definition and a pre-cycle `now`. -/
theorem rollCycleToNow_window_invariant_witness :
    toMillis kathmandu anchorStartC.val < toMillis kathmandu anchorEndC.val ∧
      rollCycleToNow kathmandu anchorStartC anchorEndC
          (toMillis kathmandu anchorStartC.val - 1000) =
        ⟨anchorStartC, anchorEndC, false⟩ :=
  ⟨by decide,
    (rollCycleToNow_window_invariant kathmandu anchorStartC anchorEndC
        (toMillis kathmandu anchorStartC.val - 1000) (by decide)).2 (by decide)⟩

/-- C7: for a fixed cycle definition, the start of the resolved window is
monotone in `now`: resolving at a later instant never yields an earlier
`start`. -/
theorem rollCycleToNow_start_monotone (z : Zone) (s e : ValidCivil) (n1 n2 : Int)
    (hse : toMillis z s.val < toMillis z e.val) (h12 : n1 < n2) :
    toMillis z (rollCycleToNow z s e n1).start.val ≤
      toMillis z (rollCycleToNow z s e n2).start.val := by
  unfold rollCycleToNow
  by_cases h2 : n2 < toMillis z s.val
  · rw [if_pos (by omega), if_pos h2]
  · rw [if_neg h2]
    by_cases h1 : n1 < toMillis z s.val
    · rw [if_pos h1]
      dsimp only
      exact rollLoop_start_ge z n2 s e false (by omega)
    · rw [if_neg h1]
      have habs := rollLoop_absorb z n1 n2 (by omega) s e false
      rw [habs]
      have hc := rollLoop_contains z n1 s e false (by omega)
      have hge := rollLoop_start_ge z n2 (rollLoop z n1 s e false).start
        (rollLoop z n1 s e false).endTime (rollLoop z n1 s e false).rolled (by omega)
      omega

/-- Witness for C7 at the default cycle definition and two pre-cycle
instants. -/
theorem rollCycleToNow_start_monotone_witness :
    toMillis kathmandu
        (rollCycleToNow kathmandu anchorStartC anchorEndC
          (toMillis kathmandu anchorStartC.val - 2000)).start.val ≤
      toMillis kathmandu
        (rollCycleToNow kathmandu anchorStartC anchorEndC
          (toMillis kathmandu anchorStartC.val - 1000)).start.val :=
  rollCycleToNow_start_monotone kathmandu anchorStartC anchorEndC
    (toMillis kathmandu anchorStartC.val - 2000)
    (toMillis kathmandu anchorStartC.val - 1000) (by decide) (by decide)

/-- C6: for every window with `end > start` and every instant `now`, the
computed elapsed fraction is a finite rational in `[0, 1]`. -/
theorem progress_in_unit_interval (z : Zone) (s e : ValidCivil) (now : Int)
    (hse : toMillis z s.val < toMillis z e.val) :
    ∃ q : ℚ, progressOf z s e now = some q ∧ 0 ≤ q ∧ q ≤ 1 := by
  simp only [progressOf, jsDiv, clamp]
  rw [if_neg (by omega)]
  set T : Int := toMillis z e.val - toMillis z s.val with hT
  set E : Int := max 0 (min T (now - toMillis z s.val)) with hE
  have hT0 : 0 < T := by omega
  have hE0 : 0 ≤ E := by omega
  have hET : E ≤ T := by omega
  have hTQ : (0 : ℚ) < (T : ℚ) := by exact_mod_cast hT0
  refine ⟨_, rfl, ?_, ?_⟩
  · apply div_nonneg _ (le_of_lt hTQ)
    exact_mod_cast hE0
  · rw [div_le_one hTQ]
    exact_mod_cast hET

/-- Witness for C6 at the default cycle definition. -/
theorem progress_in_unit_interval_witness :
    ∃ q : ℚ,
      progressOf kathmandu anchorStartC anchorEndC
          (toMillis kathmandu anchorStartC.val + 93120000) = some q ∧
        0 ≤ q ∧ q ≤ 1 :=
  progress_in_unit_interval kathmandu anchorStartC anchorEndC
    (toMillis kathmandu anchorStartC.val + 93120000) (by decide)

/-- C3 counterexample: a zero-length window reaching the progress
computation is not rejected; the code divides `elapsedMs` by the zero
`totalMs` (a `0/0` in JS, i.e. NaN, embedded as `none`) — there is no
InvalidWindow condition. -/
theorem progress_zero_window_divides_cex :
    toMillis kathmandu anchorStartC.val - toMillis kathmandu anchorStartC.val = 0 ∧
      progressOf kathmandu anchorStartC anchorStartC 0 = none := by
  constructor
  · omega
  · decide

/-- C3 amended: if a zero-length window (`end == start`) reaches the
progress computation, the division is performed with the zero denominator
and the elapsed fraction is the JS `0/0` (NaN, embedded `none`); no
InvalidWindow condition exists in the code. -/
theorem progress_zero_window_nan (z : Zone) (s e : ValidCivil) (now : Int)
    (h : toMillis z e.val = toMillis z s.val) :
    progressOf z s e now = none := by
  simp only [progressOf, jsDiv, clamp, h, sub_self, if_pos]

/-- Witness for the amended C3 at a concrete zero-length window. -/
theorem progress_zero_window_nan_witness :
    progressOf kathmandu anchorEndC anchorEndC 77 = none :=
  progress_zero_window_nan kathmandu anchorEndC anchorEndC 77 rfl

/-- Stepping one civil day back preserves validity, moves the year back by
at most one, and moves the linearization back by exactly one day. -/
theorem decDay_spec (c : CivilDT) (h : c.Valid) (hy2 : 2 ≤ c.year) :
    (decDay c).Valid ∧ c.year - 1 ≤ (decDay c).year ∧ (decDay c).year ≤ c.year ∧
      linMs (decDay c) + 86400000 = linMs c := by
  obtain ⟨hy1, hm1, hm2, hd1, hd2, hms⟩ := h
  unfold decDay linMs toEpochDays CivilDT.Valid
  split_ifs with hD hM
  · dsimp only
    refine ⟨⟨hy1, hm1, hm2, by omega, by omega, hms⟩, by omega, by omega, by omega⟩
  · dsimp only
    have h1 := daysBeforeMonth_succ c.year (c.month - 1) (by omega) (by omega)
    have e1 : c.month - 1 + 1 = c.month := by omega
    rw [e1] at h1
    have h2 := daysInMonth_ge c.year (c.month - 1)
    have h3 := daysInMonth_le c.year (c.month - 1)
    refine ⟨⟨hy1, by omega, by omega, by omega, le_refl _, hms⟩, by omega, by omega, by omega⟩
  · dsimp only
    have hm : c.month = 1 := by omega
    rw [hm]
    have h1 := daysBeforeYear_succ (c.year - 1) (by omega)
    have h2 := daysBeforeMonth_twelve (c.year - 1)
    have h3 := daysBeforeMonth_one c.year
    have h4 : daysInMonth (c.year - 1) 12 = 31 := by simp [daysInMonth]
    have h5 : daysInMonth c.year 1 = 31 := by simp [daysInMonth]
    refine ⟨⟨by omega, by omega, by omega, by omega, by omega, hms⟩, by omega, by omega, ?_⟩
    rw [(by omega : c.year - 1 + 1 = c.year)] at h1
    split_ifs at h1 h2 <;> omega

/-- Luxon `end.minus({days: 3})` moves the linearization back by exactly
72 hours of civil time. -/
theorem linMs_minusThreeDays (c : CivilDT) (h : c.Valid) (hy : 4 ≤ c.year) :
    linMs (minusCalendarDays c 3) + 3 * 86400000 = linMs c := by
  obtain ⟨v1, y1a, y1b, l1⟩ := decDay_spec c h (by omega)
  obtain ⟨v2, y2a, y2b, l2⟩ := decDay_spec (decDay c) v1 (by omega)
  obtain ⟨v3, y3a, y3b, l3⟩ := decDay_spec (decDay (decDay c)) v2 (by omega)
  show linMs (decDay (decDay (decDay c))) + 3 * 86400000 = linMs c
  omega

/-- C4 counterexample: in a zone with a DST transition, the `threeDays`
milestone (calendar-day subtraction) is not `end` minus 72 absolute hours:
for the window ending `2025-04-02T00:00` in `dstZone`, the two instants
differ by the one-hour DST shift. -/
theorem milestones_threeDays_not_72h_cex :
    (milestoneTimes dstZone marchStartC aprilEndC).threeDays ≠
      (toMillis dstZone aprilEndC.val : ℚ) - 259200000 := by
  have h1 : toMillis dstZone (minusCalendarDays aprilEndC.val 3) = 63878889600000 := by
    decide
  have h2 : toMillis dstZone aprilEndC.val = 63879145200000 := by decide
  simp only [milestoneTimes, h1, h2]
  norm_num

/-- C4 amended: `threeDaysBefore` is `end` minus three calendar days
(preserving local time-of-day); in a fixed-offset zone — in particular the
default `Asia/Kathmandu` of the app, which has no DST — this coincides with
subtracting exactly 72 hours of absolute duration. -/
theorem milestones_threeDays_calendar (z : Zone) (hz : FixedOffset z)
    (s e : ValidCivil) (hy : 4 ≤ e.val.year) :
    (milestoneTimes z s e).threeDays = (toMillis z e.val : ℚ) - 259200000 := by
  have key : toMillis z (minusCalendarDays e.val 3) = toMillis z e.val - 259200000 := by
    unfold toMillis
    rw [hz (minusCalendarDays e.val 3) e.val]
    have lm := linMs_minusThreeDays e.val e.property hy
    omega
  simp only [milestoneTimes, key]
  push_cast
  ring

/-- Witness for the amended C4 at the default cycle definition in the
fixed-offset default zone. -/
theorem milestones_threeDays_calendar_witness :
    (milestoneTimes kathmandu anchorStartC anchorEndC).threeDays =
      (toMillis kathmandu anchorEndC.val : ℚ) - 259200000 :=
  milestones_threeDays_calendar kathmandu (fun _ _ => rfl) anchorStartC anchorEndC
    (by decide)

/-- A `schedule` call never drops timers already recorded. -/
theorem scheduleStep_subset (enabled : ReminderFlags) (nowRef : ℚ)
    (acc : List (MKind × ℚ)) (k : MKind) (t : ℚ) (x : MKind × ℚ) (hx : x ∈ acc) :
    x ∈ scheduleStep enabled nowRef acc k t := by
  unfold scheduleStep
  split_ifs <;> simp [hx]

/-- A `schedule` call for an enabled flag and a strictly future instant arms
the timer. -/
theorem scheduleStep_adds (enabled : ReminderFlags) (nowRef : ℚ)
    (acc : List (MKind × ℚ)) (k : MKind) (t : ℚ)
    (hf : flagOf enabled k = true) (ht : nowRef < t) :
    (k, t) ∈ scheduleStep enabled nowRef acc k t := by
  unfold scheduleStep
  rw [if_neg]
  · simp
  · push_neg
    exact ⟨by linarith, by simp [hf]⟩

/-- Everything a `schedule` call can put into the timer list. -/
theorem scheduleStep_mem (enabled : ReminderFlags) (nowRef : ℚ)
    (acc : List (MKind × ℚ)) (k : MKind) (t : ℚ) (x : MKind × ℚ)
    (hx : x ∈ scheduleStep enabled nowRef acc k t) :
    x ∈ acc ∨ (x = (k, t) ∧ nowRef < t ∧ flagOf enabled k = true) := by
  unfold scheduleStep at hx
  split_ifs at hx with h
  · exact Or.inl hx
  · push_neg at h
    rcases List.mem_append.mp hx with h1 | h1
    · exact Or.inl h1
    · refine Or.inr ⟨List.mem_singleton.mp h1, by linarith [h.1], ?_⟩
      simpa using h.2

/-- Characterization of the armed timer list: each entry is the timer of its
kind, armed at `armInstant`, only when the flag is set and the instant is
strictly after the wall clock at arm time. -/
theorem rearm_mem (z : Zone) (s e : ValidCivil) (enabled : ReminderFlags)
    (prev : List (MKind × ℚ)) (nowRef : ℚ) (k : MKind) (q : ℚ)
    (hq : (k, q) ∈ rearm prev enabled z s e nowRef) :
    q = armInstant z s e k ∧ nowRef < armInstant z s e k ∧
      flagOf enabled k = true := by
  simp only [rearm] at hq
  rcases scheduleStep_mem _ _ _ _ _ _ hq with hq | ⟨hx, ht, hf⟩
  rotate_left
  · obtain ⟨rfl, rfl⟩ := Prod.mk.injEq .. ▸ And.intro (congrArg Prod.fst hx) (congrArg Prod.snd hx)
    exact ⟨rfl, ht, hf⟩
  rcases scheduleStep_mem _ _ _ _ _ _ hq with hq | ⟨hx, ht, hf⟩
  rotate_left
  · obtain ⟨rfl, rfl⟩ := Prod.mk.injEq .. ▸ And.intro (congrArg Prod.fst hx) (congrArg Prod.snd hx)
    exact ⟨rfl, ht, hf⟩
  rcases scheduleStep_mem _ _ _ _ _ _ hq with hq | ⟨hx, ht, hf⟩
  rotate_left
  · obtain ⟨rfl, rfl⟩ := Prod.mk.injEq .. ▸ And.intro (congrArg Prod.fst hx) (congrArg Prod.snd hx)
    exact ⟨rfl, ht, hf⟩
  rcases scheduleStep_mem _ _ _ _ _ _ hq with hq | ⟨hx, ht, hf⟩
  · simp at hq
  · obtain ⟨rfl, rfl⟩ := Prod.mk.injEq .. ▸ And.intro (congrArg Prod.fst hx) (congrArg Prod.snd hx)
    exact ⟨rfl, ht, hf⟩

/-- C2 counterexample: with every flag enabled and a wall clock at the
anchor start, the renewal timer is armed to fire at the renewal instant
minus 5 minutes, not at the renewal instant (which equals the end of the
window). -/
theorem renewal_timer_fires_early_cex :
    ((MKind.renewal, (milestoneTimes kathmandu anchorStartC anchorEndC).renewal) ∉
        rearm [] allOn kathmandu anchorStartC anchorEndC 63891250380000) ∧
      (MKind.renewal,
          (milestoneTimes kathmandu anchorStartC anchorEndC).renewal - 300000) ∈
        rearm [] allOn kathmandu anchorStartC anchorEndC 63891250380000 := by
  have hs : toMillis kathmandu anchorStartC.val = 63891250380000 := by decide
  have he : toMillis kathmandu anchorEndC.val = 63893928780000 := by decide
  have h3 : toMillis kathmandu (minusCalendarDays anchorEndC.val 3) = 63893669580000 := by
    decide
  constructor <;>
  · simp only [rearm, milestoneTimes, scheduleStep, flagOf, allOn, hs, he, h3,
      Option.getD_some]
    norm_num

/-- C2 amended: for every milestone kind whose flag is enabled and whose
armed instant is strictly after the wall clock at arm time, `rearm` arms a
timer firing at that armed instant, where the armed instant is the
milestone instant for `halfway`, `threeDays` and `lastDay`, and the renewal
instant minus 5 minutes for `renewal`. -/
theorem rearm_arms_at_armInstant (z : Zone) (s e : ValidCivil)
    (enabled : ReminderFlags) (prev : List (MKind × ℚ)) (nowRef : ℚ) (k : MKind)
    (hf : flagOf enabled k = true) (ht : nowRef < armInstant z s e k) :
    (k, armInstant z s e k) ∈ rearm prev enabled z s e nowRef := by
  cases k
  · simp only [rearm]
    exact scheduleStep_subset _ _ _ _ _ _ (scheduleStep_subset _ _ _ _ _ _
      (scheduleStep_subset _ _ _ _ _ _ (scheduleStep_adds _ _ _ _ _ hf ht)))
  · simp only [rearm]
    exact scheduleStep_subset _ _ _ _ _ _ (scheduleStep_subset _ _ _ _ _ _
      (scheduleStep_adds _ _ _ _ _ hf ht))
  · simp only [rearm]
    exact scheduleStep_subset _ _ _ _ _ _ (scheduleStep_adds _ _ _ _ _ hf ht)
  · simp only [rearm]
    exact scheduleStep_adds _ _ _ _ _ hf ht

/-- Witness for the amended C2: the halfway timer is armed at the halfway
instant when the wall clock is at instant 0. -/
theorem rearm_arms_at_armInstant_witness :
    (MKind.halfway, armInstant kathmandu anchorStartC anchorEndC .halfway) ∈
      rearm [] allOn kathmandu anchorStartC anchorEndC 0 :=
  rearm_arms_at_armInstant kathmandu anchorStartC anchorEndC allOn [] 0 .halfway
    (by decide)
    (by
      have hs : toMillis kathmandu anchorStartC.val = 63891250380000 := by decide
      have he : toMillis kathmandu anchorEndC.val = 63893928780000 := by decide
      simp only [armInstant, milestoneTimes, hs, he]
      norm_num)

/-- C8: re-arming is idempotent and duplicate-free: the armed list ignores
whatever was armed before (everything is cleared first), arming twice with
identical inputs arms the same timers, and each milestone kind occurs at
most once. -/
theorem rearm_idempotent_nodup (p p1 p2 : List (MKind × ℚ))
    (enabled : ReminderFlags) (z : Zone) (s e : ValidCivil) (nowRef : ℚ) :
    rearm (rearm p enabled z s e nowRef) enabled z s e nowRef =
        rearm p enabled z s e nowRef ∧
      ((rearm p enabled z s e nowRef).map Prod.fst).Nodup ∧
      rearm p1 enabled z s e nowRef = rearm p2 enabled z s e nowRef := by
  refine ⟨rfl, ?_, rfl⟩
  simp only [rearm, scheduleStep]
  split_ifs <;> simp

/-- C9: a milestone whose instant is at or before the wall clock at arm
time is never armed (its timer key appears with no fire instant at all), so
no reminder event is ever emitted for it in that arming. -/
theorem past_milestone_not_armed (z : Zone) (s e : ValidCivil)
    (enabled : ReminderFlags) (prev : List (MKind × ℚ)) (nowRef : ℚ) (k : MKind)
    (h : milestoneInstant z s e k ≤ nowRef) :
    ∀ q : ℚ, (k, q) ∉ rearm prev enabled z s e nowRef := by
  intro q hq
  obtain ⟨-, harm, -⟩ := rearm_mem z s e enabled prev nowRef k q hq
  have hle : armInstant z s e k ≤ milestoneInstant z s e k := by
    cases k <;> simp [armInstant, milestoneInstant]
  linarith

/-- Witness for C9: at a wall clock equal to the renewal instant, no
renewal timer is armed. -/
theorem past_milestone_not_armed_witness :
    (MKind.renewal, (0 : ℚ)) ∉
      rearm [] allOn kathmandu anchorStartC anchorEndC 63893928780000 :=
  past_milestone_not_armed kathmandu anchorStartC anchorEndC allOn []
    63893928780000 .renewal
    (by
      have he : toMillis kathmandu anchorEndC.val = 63893928780000 := by decide
      simp only [milestoneInstant, milestoneTimes, he]
      norm_num) 0

/-- C10: the armed timer set of the app is a function of the wall clock at
arm time, the flags and the window; the QA-mode synthetic `now` does not
influence it, even though it does replace the displayed clock. -/
theorem qa_now_noninterference (qm1 qm2 : Bool) (qn1 qn2 : Option ℚ)
    (wallNow qaNow : ℚ) (prev : List (MKind × ℚ)) (enabled : ReminderFlags)
    (z : Zone) (s e : ValidCivil) :
    armedTimersOfApp qm1 qn1 wallNow prev enabled z s e =
        armedTimersOfApp qm2 qn2 wallNow prev enabled z s e ∧
      useNowTickNow true (some qaNow) wallNow = qaNow :=
  ⟨rfl, rfl⟩

/-- C5 counterexample: a stored record whose `reminders` object has only the
`halfway` flag loads with the other nested flags absent (`undefined`), not
with their defaults. -/
theorem loadState_nested_default_cex :
    (loadState DEFAULT_CYCLE
        (.parsed ⟨none, none, none, none, some ⟨some false, none, none, none⟩,
          none, none⟩)).reminders.threeDays = none ∧
      DEFAULT_CYCLE.reminders.threeDays = some true :=
  ⟨rfl, rfl⟩

/-- C5 amended: `loadState` merges per-key at the top level only: an absent
top-level key takes the fallback value, a present `reminders` object
replaces the flags of the fallback wholesale (missing nested flags stay absent),
and unparseable or unavailable storage yields the full fallback without
raising. -/
theorem loadState_shallow_merge (fb : CycleRec) (c : CycleJS) (r : ReminderFlags) :
    loadState fb .absent = fb ∧
    loadState fb .corrupt = fb ∧
    (loadState fb (.parsed { c with reminders := none })).reminders = fb.reminders ∧
    (loadState fb (.parsed { c with reminders := some r })).reminders = r ∧
    (loadState fb (.parsed { c with theme := none })).theme = fb.theme ∧
    (loadState fb (.parsed { c with startISO := none })).startISO = fb.startISO :=
  ⟨rfl, rfl, rfl, rfl, rfl, rfl⟩

end GPTCounter
